import Mathlib

/-!
Verification of the rasterized-content pagination and PDF export pipeline
(`handleExportPDF`) of the Event-Management repository.

The pipeline captures a DOM region to a canvas (html2canvas), computes page
geometry for A4 paper in points, slices the canvas height into page-sized
bands with a `while (yPos < canvas.height)` loop, composites each band onto a
temporary canvas via `ctx.drawImage`, places each band into a jsPDF document
at `(padding, padding)` scaled to the content width, and finally saves the
document as `"events-overview.pdf"`.

Numbers are modelled as exact rationals (`ℚ`); canvas pixel data, where it
matters (the compositor), is modelled as rows of bytes with natural-number
coordinates.  The `while` loop is embedded as a fuel-indexed recursion whose
`none` result models non-termination; the fuel supplied at the call site is
shown sufficient for all positive inputs.
-/

/-- jsPDF A4 portrait page width in points, the value returned by
`pdf.internal.pageSize.getWidth()` for `new JsPDF("p", "pt", "a4")`. -/
def a4WidthPt : ℚ := 595.28

/-- jsPDF A4 portrait page height in points, the value returned by
`pdf.internal.pageSize.getHeight()`. -/
def a4HeightPt : ℚ := 841.89

/-- the constant `padding = 10` of `handleExportPDF`. -/
def padding : ℚ := 10

/-- Page geometry derived in `handleExportPDF`: `imgWidth`, `scale`,
`pageHeightPx` keep the source's variable names. -/
structure PageGeometry where
  imgWidth : ℚ
  scale : ℚ
  pageHeightPx : ℚ
deriving DecidableEq

/-- Embeds the geometry block of `handleExportPDF`:
`imgWidth = pdfWidth - padding * 2`, `scale = imgWidth / canvas.width`,
`pageHeightPx = pdfHeight / scale`. -/
def computeGeometry (canvasWidth pdfWidth pdfHeight pad : ℚ) : PageGeometry :=
  let imgWidth := pdfWidth - pad * 2
  let scale := imgWidth / canvasWidth
  { imgWidth := imgWidth, scale := scale, pageHeightPx := pdfHeight / scale }

/-- C2: the page geometry computation is a pure function of rasterWidth,
paperWidth, paperHeight and margin (all positive) satisfying
`contentWidth = paperWidth - 2*margin`, `scale = contentWidth / rasterWidth`,
and `pageContentHeightPx = paperHeight / scale` — the full paper height
divided by scale, not reduced by the margin. -/
theorem computeGeometry_spec (rasterWidth paperWidth paperHeight margin : ℚ)
    (hw : 0 < rasterWidth) (hpw : 0 < paperWidth)
    (hph : 0 < paperHeight) (hm : 0 < margin) :
    (computeGeometry rasterWidth paperWidth paperHeight margin).imgWidth
        = paperWidth - 2 * margin ∧
    (computeGeometry rasterWidth paperWidth paperHeight margin).scale
        = (computeGeometry rasterWidth paperWidth paperHeight margin).imgWidth
            / rasterWidth ∧
    (computeGeometry rasterWidth paperWidth paperHeight margin).pageHeightPx
        = paperHeight
            / (computeGeometry rasterWidth paperWidth paperHeight margin).scale := by
  refine ⟨?_, rfl, rfl⟩
  simp only [computeGeometry]
  ring

/-- Witness for C2 at the concrete A4 parameters used by the code. -/
theorem computeGeometry_spec_witness :
    (computeGeometry 600 a4WidthPt a4HeightPt 10).imgWidth = a4WidthPt - 2 * 10 ∧
    (computeGeometry 600 a4WidthPt a4HeightPt 10).scale
        = (computeGeometry 600 a4WidthPt a4HeightPt 10).imgWidth / 600 ∧
    (computeGeometry 600 a4WidthPt a4HeightPt 10).pageHeightPx
        = a4HeightPt / (computeGeometry 600 a4WidthPt a4HeightPt 10).scale :=
  computeGeometry_spec 600 a4WidthPt a4HeightPt 10 (by norm_num)
    (by norm_num [a4WidthPt]) (by norm_num [a4HeightPt]) (by norm_num)

/-- A captured raster: a canvas with a width and rows of pixel bytes.
The height of the canvas is the number of rows. -/
structure Raster where
  width : ℕ
  pixels : List (List ℕ)
deriving DecidableEq

/-- the canvas height: number of pixel rows. -/
def Raster.height (r : Raster) : ℕ := r.pixels.length

/-- Embeds the per-slice compositing step of `handleExportPDF`: a fresh
`pageCanvas` of width `canvas.width` and height `bandHeight` is filled by
`ctx.drawImage(canvas, 0, yOff, canvas.width, bandHeight, 0, 0, canvas.width,
bandHeight)`, a verbatim copy of the source row region
`[yOff, yOff + bandHeight)` at integral coordinates.  The result pairs the
new page canvas with the source canvas as the operation leaves it (the
operation only reads the source). -/
def compositeBand (src : Raster) (yOff bandHeight : ℕ) : Raster × Raster :=
  (⟨src.width, (src.pixels.drop yOff).take bandHeight⟩, src)

/-- C6: compositing a slice produces a new raster of dimensions
(source width, slice height) whose rows are byte-identical to the source
region `[yOff, yOff + bandHeight)`, and leaves the source raster unchanged. -/
theorem compositeBand_spec (src : Raster) (yOff bandHeight : ℕ)
    (hb : yOff + bandHeight ≤ src.height) :
    (compositeBand src yOff bandHeight).1.width = src.width ∧
    (compositeBand src yOff bandHeight).1.height = bandHeight ∧
    (∀ i, i < bandHeight →
      (compositeBand src yOff bandHeight).1.pixels[i]? = src.pixels[yOff + i]?) ∧
    (compositeBand src yOff bandHeight).2 = src := by
  refine ⟨rfl, ?_, ?_, rfl⟩
  · simp only [compositeBand, Raster.height, List.length_take, List.length_drop]
    have : bandHeight ≤ src.pixels.length - yOff := by
      have := hb
      simp only [Raster.height] at this
      omega
    omega
  · intro i hi
    simp only [compositeBand]
    rw [List.getElem?_take_of_lt hi, List.getElem?_drop]

/-- Witness for C6 on a concrete 2-wide, 3-tall raster, taking the middle row. -/
theorem compositeBand_spec_witness :
    (1 + 1 ≤ (Raster.mk 2 [[0, 1], [2, 3], [4, 5]]).height) ∧
    ((compositeBand ⟨2, [[0, 1], [2, 3], [4, 5]]⟩ 1 1).1.width = 2 ∧
     (compositeBand ⟨2, [[0, 1], [2, 3], [4, 5]]⟩ 1 1).1.height = 1 ∧
     (∀ i, i < 1 →
       (compositeBand ⟨2, [[0, 1], [2, 3], [4, 5]]⟩ 1 1).1.pixels[i]?
         = (Raster.mk 2 [[0, 1], [2, 3], [4, 5]]).pixels[1 + i]?) ∧
     (compositeBand ⟨2, [[0, 1], [2, 3], [4, 5]]⟩ 1 1).2
       = ⟨2, [[0, 1], [2, 3], [4, 5]]⟩) :=
  ⟨by decide, compositeBand_spec ⟨2, [[0, 1], [2, 3], [4, 5]]⟩ 1 1 (by decide)⟩

/-- One emitted slice of the source canvas: `sourceYOffsetPx` is the `yPos` at
which the slice starts, `heightPx` is `pageCanvas.height =
min(pageHeightPx, canvas.height - yPos)`. -/
structure Slice where
  sourceYOffsetPx : ℚ
  heightPx : ℚ
deriving DecidableEq

/-- Fuel-indexed embedding of the slicing behaviour of the
`while (yPos < canvas.height)` loop of `handleExportPDF`: at each step it
emits a slice of height `min(pageHeightPx, height - yPos)` and advances
`yPos` by that height.  `none` models a run that does not finish within
`fuel` iterations (the JS loop would not terminate). -/
def sliceLoop : ℕ → ℚ → ℚ → ℚ → Option (List Slice)
  | 0, _, _, _ => none
  | fuel + 1, p, height, yPos =>
    if yPos < height then
      let h := min p (height - yPos)
      (sliceLoop fuel p height (yPos + h)).map (fun L => Slice.mk yPos h :: L)
    else
      some []

/-- the fuel supplied to the loop: one more than the number of page-sized
steps needed to cover `height`. -/
def sliceFuel (height p : ℚ) : ℕ := Nat.ceil (height / p) + 1

/-- the slicer: run the loop from `yPos = 0`. -/
def slicer (height p : ℚ) : Option (List Slice) :=
  sliceLoop (sliceFuel height p) p height 0

/-- Offsets of a slice list chain from `y`: the first slice starts at `y` and
each later slice starts where the previous one ended. -/
def chainFrom : ℚ → List Slice → Prop
  | _, [] => True
  | y, s :: rest => s.sourceYOffsetPx = y ∧ chainFrom (y + s.heightPx) rest

/-- Sum of the heights of a slice list. -/
def sumHeights (L : List Slice) : ℚ := (L.map Slice.heightPx).sum

lemma sliceLoop_stop (fuel : ℕ) (p height yPos : ℚ) (h : ¬ yPos < height) :
    sliceLoop (fuel + 1) p height yPos = some [] := by
  simp [sliceLoop, h]

lemma sliceLoop_ne_nil (fuel : ℕ) (p height yPos : ℚ) (L : List Slice)
    (hy : yPos < height) (hL : sliceLoop fuel p height yPos = some L) : L ≠ [] := by
  cases fuel with
  | zero => simp [sliceLoop] at hL
  | succ n =>
    simp only [sliceLoop, if_pos hy, Option.map_eq_some'] at hL
    obtain ⟨L', _, rfl⟩ := hL
    simp

lemma chainFrom_head (y : ℚ) (L : List Slice) (hc : chainFrom y L) (h0 : 0 < L.length) :
    (L.get ⟨0, h0⟩).sourceYOffsetPx = y := by
  cases L with
  | nil => simp at h0
  | cons s rest => exact hc.1

lemma chainFrom_succ (L : List Slice) : ∀ (y : ℚ), chainFrom y L →
    ∀ i (hi : i + 1 < L.length),
      (L.get ⟨i + 1, hi⟩).sourceYOffsetPx
        = (L.get ⟨i, Nat.lt_of_succ_lt hi⟩).sourceYOffsetPx
            + (L.get ⟨i, Nat.lt_of_succ_lt hi⟩).heightPx := by
  induction L with
  | nil => intro y _ i hi; simp at hi
  | cons s rest ih =>
    intro y hc i hi
    obtain ⟨hs, hrest⟩ := hc
    cases i with
    | zero =>
      have h0 : 0 < rest.length := by simpa using hi
      have hh := chainFrom_head (y + s.heightPx) rest hrest h0
      show (rest.get ⟨0, h0⟩).sourceYOffsetPx = s.sourceYOffsetPx + s.heightPx
      rw [hh, hs]
    | succ j =>
      have hj : j + 1 < rest.length := by simpa using hi
      have := ih (y + s.heightPx) hrest j hj
      simpa using this

lemma sliceLoop_sound (p height : ℚ) (hp : 0 < p) :
    ∀ (n : ℕ) (yPos : ℚ), yPos < height → height - yPos ≤ (n : ℚ) * p →
    ∃ L, sliceLoop (n + 1) p height yPos = some L ∧
      L ≠ [] ∧
      chainFrom yPos L ∧
      sumHeights L = height - yPos ∧
      (∀ s ∈ L, 0 < s.heightPx ∧ s.heightPx ≤ p) ∧
      (∀ i (hi : i + 1 < L.length),
        (L.get ⟨i, Nat.lt_of_succ_lt hi⟩).heightPx = p) ∧
      L.length = Nat.ceil ((height - yPos) / p) ∧
      (∀ hL : L ≠ [],
        (L.getLast hL).heightPx = (height - yPos) - ((L.length : ℚ) - 1) * p) := by
  intro n
  induction n with
  | zero =>
    intro yPos hy hle
    exfalso
    simp only [Nat.cast_zero, zero_mul] at hle
    linarith
  | succ n ih =>
    intro yPos hy hle
    by_cases hcase : height - yPos ≤ p
    · -- terminal iteration: the remainder fits on one page
      have hmin : min p (height - yPos) = height - yPos := min_eq_right hcase
      have heq : sliceLoop (n + 1 + 1) p height yPos
          = some [Slice.mk yPos (height - yPos)] := by
        rw [sliceLoop.eq_def]
        simp only [if_pos hy]
        rw [hmin]
        have hy2 : yPos + (height - yPos) = height := by ring
        rw [hy2, sliceLoop_stop n p height height (lt_irrefl height)]
        rfl
      refine ⟨[Slice.mk yPos (height - yPos)], heq, by simp, ⟨rfl, trivial⟩, ?_, ?_, ?_, ?_, ?_⟩
      · simp [sumHeights]
      · intro s hs
        simp only [List.mem_singleton] at hs
        subst hs
        refine ⟨?_, ?_⟩
        · show (0 : ℚ) < height - yPos
          linarith
        · show height - yPos ≤ p
          exact hcase
      · intro i hi
        simp at hi
      · have h1 : Nat.ceil ((height - yPos) / p) ≤ 1 := by
          apply Nat.ceil_le.mpr
          push_cast
          rw [div_le_one hp]
          exact hcase
        have h2 : 0 < Nat.ceil ((height - yPos) / p) :=
          Nat.ceil_pos.mpr (div_pos (by linarith) hp)
        simp only [List.length_singleton]
        omega
      · intro hL
        simp [List.getLast]
    · -- a full-height page remains; recurse
      push_neg at hcase
      have hmin : min p (height - yPos) = p := min_eq_left (le_of_lt hcase)
      have hy' : yPos + p < height := by linarith
      have hle' : height - (yPos + p) ≤ (n : ℚ) * p := by
        push_cast at hle
        linarith
      obtain ⟨L', hL', hne', hchain', hsum', hbound', hfull', hlen', hlast'⟩ :=
        ih (yPos + p) hy' hle'
      have heq : sliceLoop (n + 1 + 1) p height yPos
          = some (Slice.mk yPos p :: L') := by
        rw [sliceLoop.eq_def]
        simp only [if_pos hy]
        rw [hmin, hL']
        rfl
      refine ⟨Slice.mk yPos p :: L', heq, by simp, ⟨rfl, hchain'⟩, ?_, ?_, ?_, ?_, ?_⟩
      · simp only [sumHeights, List.map_cons, List.sum_cons] at hsum' ⊢
        rw [hsum']
        ring
      · intro s hs
        rcases List.mem_cons.mp hs with hs | hs
        · subst hs
          exact ⟨hp, le_refl p⟩
        · exact hbound' s hs
      · intro i hi
        cases i with
        | zero => rfl
        | succ j =>
          have hj : j + 1 < L'.length := by simpa using hi
          have := hfull' j hj
          simpa using this
      · have harg : (height - yPos) / p = (height - (yPos + p)) / p + 1 := by
          field_simp
          ring
        rw [List.length_cons, hlen', harg,
          Nat.ceil_add_one (div_nonneg (by linarith) (le_of_lt hp))]
      · intro hL
        have hlast2 := hlast' hne'
        rw [List.getLast_cons hne', hlast2, List.length_cons]
        push_cast
        ring

/-- C1: for every positive height and pageContentHeightPx, the slicer emits
exactly `ceil(height / pageContentHeightPx)` slices forming a gap-free,
non-overlapping partition of the raster height: the first slice's offset is 0,
each subsequent offset equals the previous offset plus the previous height,
the heights sum exactly to `height`, every slice except possibly the last has
height `pageContentHeightPx`, the last has height
`height - (count - 1) * pageContentHeightPx`, and no slice has zero height. -/
theorem slicer_partition (height p : ℚ) (hh : 0 < height) (hp : 0 < p) :
    ∃ L, slicer height p = some L ∧
      L.length = Nat.ceil (height / p) ∧
      (∀ h0 : 0 < L.length, (L.get ⟨0, h0⟩).sourceYOffsetPx = 0) ∧
      (∀ i (hi : i + 1 < L.length),
        (L.get ⟨i + 1, hi⟩).sourceYOffsetPx
          = (L.get ⟨i, Nat.lt_of_succ_lt hi⟩).sourceYOffsetPx
              + (L.get ⟨i, Nat.lt_of_succ_lt hi⟩).heightPx) ∧
      sumHeights L = height ∧
      (∀ i (hi : i + 1 < L.length),
        (L.get ⟨i, Nat.lt_of_succ_lt hi⟩).heightPx = p) ∧
      (∀ hL : L ≠ [],
        (L.getLast hL).heightPx = height - ((L.length : ℚ) - 1) * p) ∧
      (∀ s ∈ L, 0 < s.heightPx) := by
  have hle : height - 0 ≤ (Nat.ceil (height / p) : ℚ) * p := by
    rw [sub_zero]
    have hc := Nat.le_ceil (height / p)
    calc height = height / p * p := by field_simp
    _ ≤ (Nat.ceil (height / p) : ℚ) * p :=
        mul_le_mul_of_nonneg_right hc (le_of_lt hp)
  obtain ⟨L, hL, hne, hchain, hsum, hbound, hfull, hlen, hlast⟩ :=
    sliceLoop_sound p height hp (Nat.ceil (height / p)) 0 hh hle
  refine ⟨L, ?_, ?_, ?_, ?_, ?_, hfull, ?_, ?_⟩
  · simp only [slicer, sliceFuel]
    exact hL
  · rw [hlen, sub_zero]
  · exact fun h0 => chainFrom_head 0 L hchain h0
  · exact chainFrom_succ L 0 hchain
  · rw [hsum, sub_zero]
  · intro hL2
    rw [hlast hL2]
    ring
  · exact fun s hs => (hbound s hs).1

/-- Witness for C1 at the spec's Scenario A, `height = 1000`,
`pageContentHeightPx = 400`, together with the concrete slice list
`[400, 400, 200]` that the loop produces there. -/
theorem slicer_partition_witness :
    (∃ L, slicer 1000 400 = some L ∧
      L.length = Nat.ceil ((1000 : ℚ) / 400) ∧
      (∀ h0 : 0 < L.length, (L.get ⟨0, h0⟩).sourceYOffsetPx = 0) ∧
      (∀ i (hi : i + 1 < L.length),
        (L.get ⟨i + 1, hi⟩).sourceYOffsetPx
          = (L.get ⟨i, Nat.lt_of_succ_lt hi⟩).sourceYOffsetPx
              + (L.get ⟨i, Nat.lt_of_succ_lt hi⟩).heightPx) ∧
      sumHeights L = 1000 ∧
      (∀ i (hi : i + 1 < L.length),
        (L.get ⟨i, Nat.lt_of_succ_lt hi⟩).heightPx = 400) ∧
      (∀ hL : L ≠ [],
        (L.getLast hL).heightPx = 1000 - ((L.length : ℚ) - 1) * 400) ∧
      (∀ s ∈ L, 0 < s.heightPx)) ∧
    slicer 1000 400
      = some [Slice.mk 0 400, Slice.mk 400 400, Slice.mk 800 200] := by
  refine ⟨slicer_partition 1000 400 (by decide) (by decide), ?_⟩
  have h3 : Nat.ceil ((1000 : ℚ) / 400) = 3 := by
    rw [Nat.ceil_eq_iff (by norm_num)]
    norm_num
  simp only [slicer, sliceFuel, h3]
  norm_num [sliceLoop, min_def]

/-- Failures that the collaborators of `handleExportPDF` can raise: the
`html2canvas` capture promise rejecting, or `pageCanvas.toDataURL` throwing
while encoding a band (for example on a tainted canvas). -/
inductive PipeError
  | captureFailure
  | encodingFailure
deriving DecidableEq

/-- Dimensions of the captured canvas, as the export loop reads them
(`canvas.width`, `canvas.height`). -/
structure Canvas where
  width : ℚ
  height : ℚ
deriving DecidableEq

/-- One `pdf.addImage(data, "PNG", x, y, w, h)` call recorded on a page. -/
structure Placement where
  data : String
  x : ℚ
  y : ℚ
  w : ℚ
  h : ℚ
deriving DecidableEq

/-- A jsPDF document: the ordered pages, each holding the placements added to
it.  The current page is the last one. -/
structure PdfDoc where
  pages : List (List Placement)
deriving DecidableEq

/-- Embeds the state produced by the constructor call, which starts with one
empty page. -/
def PdfDoc.new : PdfDoc := PdfDoc.mk [[]]

/-- Embeds `pdf.addImage(...)`: the placement is appended to the current
(last) page. -/
def PdfDoc.addImage (d : PdfDoc) (pl : Placement) : PdfDoc :=
  PdfDoc.mk (d.pages.dropLast ++ [(d.pages.getLast?.getD []) ++ [pl]])

/-- Embeds `pdf.addPage()`: a fresh empty page is appended and becomes
current. -/
def PdfDoc.addPage (d : PdfDoc) : PdfDoc := PdfDoc.mk (d.pages ++ [[]])

/-- Fuel-indexed embedding of the `while (yPos < canvas.height)` loop of
`handleExportPDF`, including the document assembly: each iteration composites
the band starting at `yPos` of height `min(pageHeightPx, height - yPos)`,
encodes it (`encode` abstracts `pageCanvas.toDataURL`, applied to the band's
source offset and height, and may throw), adds it to the current page at
`(padding, padding)` with rendered size `(imgWidth, bandHeight * scale)`,
advances `yPos`, and appends a new page if content remains.  `none` models a
run that does not finish within `fuel` iterations;
`some (Except.error e)` models the loop throwing `e`. -/
def exportLoop (encode : ℚ → ℚ → Except PipeError String) (g : PageGeometry)
    (height : ℚ) : ℕ → ℚ → PdfDoc → Option (Except PipeError PdfDoc)
  | 0, _, _ => none
  | fuel + 1, yPos, pdf =>
    if yPos < height then
      let h := min g.pageHeightPx (height - yPos)
      match encode yPos h with
      | Except.error e => some (Except.error e)
      | Except.ok data =>
          let pdf1 := pdf.addImage (Placement.mk data padding padding g.imgWidth (h * g.scale))
          let pdf2 := if yPos + h < height then pdf1.addPage else pdf1
          exportLoop encode g height fuel (yPos + h) pdf2
    else
      some (Except.ok pdf)

/-- The body of the `try` block of `handleExportPDF`: capture, geometry, then
the slicing/compositing/assembly loop; on success it yields the finished
document.  `none` models a body that never finishes. -/
def tryBody (capture : Except PipeError Canvas)
    (encode : ℚ → ℚ → Except PipeError String) :
    Option (Except PipeError PdfDoc) :=
  match capture with
  | Except.error e => some (Except.error e)
  | Except.ok canvas =>
      let g := computeGeometry canvas.width a4WidthPt a4HeightPt padding
      exportLoop encode g canvas.height
        (sliceFuel canvas.height g.pageHeightPx) 0 PdfDoc.new

/-- Observable side effects of one export invocation, in order: toggling the
`"exporting"` class on `document.body`, `console.error` logging, and
`pdf.save(filename)` with the finished document. -/
inductive Event
  | addIndicator
  | removeIndicator
  | logError (e : PipeError)
  | save (filename : String) (doc : PdfDoc)
deriving DecidableEq

/-- Embeds `handleExportPDF` of `react-frontend/src/Utils` end to end as the
ordered list of its observable side effects: add the exporting indicator, run
the `try` body, on error log it (`catch`), and in all cases remove the
indicator (`finally`).  On success the body's single `pdf.save` call with
filename `"events-overview.pdf"` is emitted.  `none` models an invocation
whose loop never terminates (in which case the `finally` block is never
reached). -/
def handleExportPDF (capture : Except PipeError Canvas)
    (encode : ℚ → ℚ → Except PipeError String) : Option (List Event) :=
  match tryBody capture encode with
  | none => none
  | some (Except.error e) =>
      some ([Event.addIndicator] ++ [Event.logError e] ++ [Event.removeIndicator])
  | some (Except.ok pdf) =>
      some ([Event.addIndicator] ++ [Event.save "events-overview.pdf" pdf]
        ++ [Event.removeIndicator])

/-- the filenames passed to `pdf.save`, in order, within a trace. -/
def savedFiles (tr : List Event) : List String :=
  tr.filterMap (fun e => match e with
    | Event.save f _ => some f
    | _ => none)

/-- the documents passed to `pdf.save`, in order, within a trace. -/
def savedDocs (tr : List Event) : List PdfDoc :=
  tr.filterMap (fun e => match e with
    | Event.save _ d => some d
    | _ => none)

/-- The single page produced for one slice: one `addImage` of the encoded
band at `(padding, padding)`, rendered at width `imgWidth` and height
`heightPx * scale`. -/
def pageOf (encode : ℚ → ℚ → Except PipeError String) (g : PageGeometry)
    (s : Slice) : List Placement :=
  [Placement.mk
    (match encode s.sourceYOffsetPx s.heightPx with
      | Except.ok d => d
      | Except.error _ => "")
    padding padding g.imgWidth (s.heightPx * g.scale)]

lemma addImage_last (P : List (List Placement)) (pl : Placement) :
    (PdfDoc.mk (P ++ [[]])).addImage pl = PdfDoc.mk (P ++ [[pl]]) := by
  simp [PdfDoc.addImage, List.dropLast_concat, List.getLast?_concat]

lemma exportLoop_stop (encode : ℚ → ℚ → Except PipeError String)
    (g : PageGeometry) (height : ℚ) (fuel : ℕ) (yPos : ℚ) (pdf : PdfDoc)
    (h : ¬ yPos < height) :
    exportLoop encode g height (fuel + 1) yPos pdf = some (Except.ok pdf) := by
  rw [exportLoop.eq_def]
  simp [h]

lemma exportLoop_pages (encode : ℚ → ℚ → Except PipeError String)
    (g : PageGeometry) (height : ℚ)
    (henc : ∀ y h, ∃ d, encode y h = Except.ok d) :
    ∀ (fuel : ℕ) (yPos : ℚ) (P : List (List Placement)) (L : List Slice),
      sliceLoop fuel g.pageHeightPx height yPos = some L →
      exportLoop encode g height fuel yPos (PdfDoc.mk (P ++ [[]]))
        = some (Except.ok (PdfDoc.mk
            (P ++ (if L = [] then [[]] else L.map (pageOf encode g))))) := by
  intro fuel
  induction fuel with
  | zero =>
    intro yPos P L hL
    simp [sliceLoop] at hL
  | succ n ih =>
    intro yPos P L hL
    by_cases hy : yPos < height
    · rw [sliceLoop.eq_def] at hL
      simp only [if_pos hy] at hL
      obtain ⟨L', hL', rfl⟩ := Option.map_eq_some'.mp hL
      obtain ⟨d, hd⟩ := henc yPos (min g.pageHeightPx (height - yPos))
      rw [exportLoop.eq_def]
      simp only [if_pos hy]
      rw [hd]
      simp only [addImage_last]
      by_cases hmore : yPos + min g.pageHeightPx (height - yPos) < height
      · rw [if_pos hmore]
        have hne' : L' ≠ [] :=
          sliceLoop_ne_nil n g.pageHeightPx height
            (yPos + min g.pageHeightPx (height - yPos)) L' hmore hL'
        rw [PdfDoc.addPage]
        dsimp only
        rw [ih (yPos + min g.pageHeightPx (height - yPos))
          (P ++ [[Placement.mk d padding padding g.imgWidth
            (min g.pageHeightPx (height - yPos) * g.scale)]]) L' hL']
        rw [if_neg hne']
        have hcons : (Slice.mk yPos (min g.pageHeightPx (height - yPos)) :: L') ≠ [] := by
          simp
        rw [if_neg hcons]
        simp [pageOf, hd, List.append_assoc]
      · rw [if_neg hmore]
        cases n with
        | zero => simp [sliceLoop] at hL'
        | succ m =>
          have hstop : ¬ yPos + min g.pageHeightPx (height - yPos) < height := hmore
          rw [sliceLoop_stop m g.pageHeightPx height _ hstop] at hL'
          have hL'nil : L' = [] := by
            injection hL' with h2
            exact h2.symm
          subst hL'nil
          rw [exportLoop_stop encode g height m _ _ hstop]
          have hcons : (Slice.mk yPos (min g.pageHeightPx (height - yPos)) :: ([] : List Slice)) ≠ [] := by
            simp
          rw [if_neg hcons]
          simp only [List.map_cons, List.map_nil, pageOf, hd]
    · rw [sliceLoop.eq_def] at hL
      simp only [if_neg hy] at hL
      have hLnil : L = [] := by
        injection hL with h2
        exact h2.symm
      subst hLnil
      rw [exportLoop_stop encode g height n yPos _ hy, if_pos rfl]

lemma scale_pos (w : ℚ) (hw : 0 < w) :
    0 < (computeGeometry w a4WidthPt a4HeightPt padding).scale := by
  simp only [computeGeometry, a4WidthPt, padding]
  apply div_pos (by norm_num) hw

lemma pageHeightPx_pos (w : ℚ) (hw : 0 < w) :
    0 < (computeGeometry w a4WidthPt a4HeightPt padding).pageHeightPx := by
  simp only [computeGeometry, a4WidthPt, a4HeightPt, padding]
  exact div_pos (by norm_num) (div_pos (by norm_num) hw)

lemma export_run (canvas : Canvas) (encode : ℚ → ℚ → Except PipeError String)
    (hw : 0 < canvas.width) (hh : 0 < canvas.height)
    (henc : ∀ y h, ∃ d, encode y h = Except.ok d) :
    ∃ L, slicer canvas.height
        (computeGeometry canvas.width a4WidthPt a4HeightPt padding).pageHeightPx
          = some L ∧
      L ≠ [] ∧
      chainFrom 0 L ∧
      sumHeights L = canvas.height ∧
      (∀ s ∈ L, 0 < s.heightPx ∧ s.heightPx ≤
        (computeGeometry canvas.width a4WidthPt a4HeightPt padding).pageHeightPx) ∧
      (∀ i (hi : i + 1 < L.length), (L.get ⟨i, Nat.lt_of_succ_lt hi⟩).heightPx
        = (computeGeometry canvas.width a4WidthPt a4HeightPt padding).pageHeightPx) ∧
      L.length = Nat.ceil (canvas.height /
        (computeGeometry canvas.width a4WidthPt a4HeightPt padding).pageHeightPx) ∧
      handleExportPDF (Except.ok canvas) encode
        = some [Event.addIndicator,
            Event.save "events-overview.pdf"
              (PdfDoc.mk (L.map (pageOf encode
                (computeGeometry canvas.width a4WidthPt a4HeightPt padding)))),
            Event.removeIndicator] := by
  have hp : 0 < (computeGeometry canvas.width a4WidthPt a4HeightPt padding).pageHeightPx :=
    pageHeightPx_pos canvas.width hw
  have hle : canvas.height - 0 ≤
      (Nat.ceil (canvas.height /
        (computeGeometry canvas.width a4WidthPt a4HeightPt padding).pageHeightPx) : ℚ)
        * (computeGeometry canvas.width a4WidthPt a4HeightPt padding).pageHeightPx := by
    rw [sub_zero]
    have hc := Nat.le_ceil (canvas.height /
      (computeGeometry canvas.width a4WidthPt a4HeightPt padding).pageHeightPx)
    calc canvas.height
        = canvas.height /
            (computeGeometry canvas.width a4WidthPt a4HeightPt padding).pageHeightPx
            * (computeGeometry canvas.width a4WidthPt a4HeightPt padding).pageHeightPx := by
          field_simp
    _ ≤ _ := mul_le_mul_of_nonneg_right hc (le_of_lt hp)
  obtain ⟨L, hL, hne, hchain, hsum, hbound, hfull, hlen, hlast⟩ :=
    sliceLoop_sound
      (computeGeometry canvas.width a4WidthPt a4HeightPt padding).pageHeightPx
      canvas.height hp
      (Nat.ceil (canvas.height /
        (computeGeometry canvas.width a4WidthPt a4HeightPt padding).pageHeightPx))
      0 hh hle
  have hslicer : slicer canvas.height
      (computeGeometry canvas.width a4WidthPt a4HeightPt padding).pageHeightPx
        = some L := by
    simp only [slicer, sliceFuel]
    exact hL
  have hloop := exportLoop_pages encode
    (computeGeometry canvas.width a4WidthPt a4HeightPt padding) canvas.height henc
    (sliceFuel canvas.height
      (computeGeometry canvas.width a4WidthPt a4HeightPt padding).pageHeightPx)
    0 [] L (by simp only [sliceFuel]; exact hL)
  rw [if_neg hne] at hloop
  simp only [List.nil_append] at hloop
  refine ⟨L, hslicer, hne, ?_, ?_, hbound, hfull, ?_, ?_⟩
  · exact hchain
  · rw [hsum, sub_zero]
  · rw [hlen, sub_zero]
  · simp only [handleExportPDF, tryBody, PdfDoc.new]
    rw [hloop]
    rfl

/-- C3: after the last band is placed the document's page count equals the
number of slices; band `i` (the encoding of slice `i`) appears on page `i`,
placed at `(padding, padding)` and scaled to rendered width `imgWidth` and
rendered height `heightPx * scale`; in particular a single slice yields a
single page with no trailing blank page. -/
theorem export_pages_match_slices (canvas : Canvas)
    (encode : ℚ → ℚ → Except PipeError String)
    (hw : 0 < canvas.width) (hh : 0 < canvas.height)
    (henc : ∀ y h, ∃ d, encode y h = Except.ok d) :
    ∃ tr pdf L,
      handleExportPDF (Except.ok canvas) encode = some tr ∧
      savedDocs tr = [pdf] ∧
      slicer canvas.height
        (computeGeometry canvas.width a4WidthPt a4HeightPt padding).pageHeightPx
          = some L ∧
      pdf.pages.length = L.length ∧
      (∀ i (hi : i < pdf.pages.length) (hi2 : i < L.length),
        ∃ d, encode (L.get ⟨i, hi2⟩).sourceYOffsetPx (L.get ⟨i, hi2⟩).heightPx
            = Except.ok d ∧
          pdf.pages.get ⟨i, hi⟩
            = [Placement.mk d padding padding
                (computeGeometry canvas.width a4WidthPt a4HeightPt padding).imgWidth
                ((L.get ⟨i, hi2⟩).heightPx
                  * (computeGeometry canvas.width a4WidthPt a4HeightPt padding).scale)]) ∧
      (L.length = 1 → pdf.pages.length = 1) := by
  obtain ⟨L, hslicer, hne, hchain, hsum, hbound, hfull, hlen, htrace⟩ :=
    export_run canvas encode hw hh henc
  refine ⟨_, PdfDoc.mk (L.map (pageOf encode
      (computeGeometry canvas.width a4WidthPt a4HeightPt padding))), L,
    htrace, ?_, hslicer, ?_, ?_, ?_⟩
  · simp [savedDocs]
  · simp
  · intro i hi hi2
    obtain ⟨d, hd⟩ := henc (L.get ⟨i, hi2⟩).sourceYOffsetPx (L.get ⟨i, hi2⟩).heightPx
    refine ⟨d, hd, ?_⟩
    simp only [List.get_eq_getElem, List.getElem_map, pageOf]
    rw [List.get_eq_getElem] at hd
    rw [hd]
  · intro h1
    simp [h1]

/-- Witness for C3: a 600-wide, 400-tall capture (one page) with a total
encoder. -/
theorem export_pages_match_slices_witness :
    ∃ tr pdf L,
      handleExportPDF (Except.ok (Canvas.mk 600 400)) (fun _ _ => Except.ok "img")
        = some tr ∧
      savedDocs tr = [pdf] ∧
      slicer (Canvas.mk 600 400).height
        (computeGeometry (Canvas.mk 600 400).width a4WidthPt a4HeightPt padding).pageHeightPx
          = some L ∧
      pdf.pages.length = L.length ∧
      (∀ i (hi : i < pdf.pages.length) (hi2 : i < L.length),
        ∃ d, (fun _ _ => (Except.ok "img" : Except PipeError String))
              (L.get ⟨i, hi2⟩).sourceYOffsetPx (L.get ⟨i, hi2⟩).heightPx
            = Except.ok d ∧
          pdf.pages.get ⟨i, hi⟩
            = [Placement.mk d padding padding
                (computeGeometry (Canvas.mk 600 400).width a4WidthPt a4HeightPt padding).imgWidth
                ((L.get ⟨i, hi2⟩).heightPx
                  * (computeGeometry (Canvas.mk 600 400).width a4WidthPt a4HeightPt padding).scale)]) ∧
      (L.length = 1 → pdf.pages.length = 1) :=
  export_pages_match_slices (Canvas.mk 600 400) (fun _ _ => Except.ok "img")
    (by decide) (by decide) (fun y h => ⟨"img", rfl⟩)

/-- C9: on every page other than the last, the placed band's rendered height
is `pageHeightPx * scale`, which equals the full paper height `a4HeightPt`
exactly, so the band's bottom edge `padding + height` lies below
`a4HeightPt - padding`: the rendered content encroaches on the bottom margin,
because the margin is applied only at placement and is not subtracted when
computing the slice height. -/
theorem fullPage_band_encroaches_margin (canvas : Canvas)
    (encode : ℚ → ℚ → Except PipeError String)
    (hw : 0 < canvas.width) (hh : 0 < canvas.height)
    (henc : ∀ y h, ∃ d, encode y h = Except.ok d) :
    ∃ tr pdf,
      handleExportPDF (Except.ok canvas) encode = some tr ∧
      savedDocs tr = [pdf] ∧
      ∀ i (hi : i + 1 < pdf.pages.length),
        ∃ pl, pdf.pages.get ⟨i, Nat.lt_of_succ_lt hi⟩ = [pl] ∧
          pl.h = (computeGeometry canvas.width a4WidthPt a4HeightPt padding).pageHeightPx
              * (computeGeometry canvas.width a4WidthPt a4HeightPt padding).scale ∧
          pl.h = a4HeightPt ∧
          a4HeightPt - padding < padding + pl.h := by
  obtain ⟨L, hslicer, hne, hchain, hsum, hbound, hfull, hlen, htrace⟩ :=
    export_run canvas encode hw hh henc
  have hsne : ((a4WidthPt - padding * 2) / canvas.width : ℚ) ≠ 0 := by
    have := scale_pos canvas.width hw
    simp only [computeGeometry] at this
    exact ne_of_gt this
  have hps : (computeGeometry canvas.width a4WidthPt a4HeightPt padding).pageHeightPx
      * (computeGeometry canvas.width a4WidthPt a4HeightPt padding).scale
        = a4HeightPt := by
    show a4HeightPt / ((a4WidthPt - padding * 2) / canvas.width)
        * ((a4WidthPt - padding * 2) / canvas.width) = a4HeightPt
    exact div_mul_cancel₀ a4HeightPt hsne
  refine ⟨_, PdfDoc.mk (L.map (pageOf encode
      (computeGeometry canvas.width a4WidthPt a4HeightPt padding))),
    htrace, by simp [savedDocs], ?_⟩
  intro i hi
  have hi2 : i + 1 < L.length := by simpa using hi
  have hslice := hfull i hi2
  refine ⟨Placement.mk
      (match encode (L.get ⟨i, Nat.lt_of_succ_lt hi2⟩).sourceYOffsetPx
          (L.get ⟨i, Nat.lt_of_succ_lt hi2⟩).heightPx with
        | Except.ok d => d
        | Except.error _ => "")
      padding padding
      (computeGeometry canvas.width a4WidthPt a4HeightPt padding).imgWidth
      ((L.get ⟨i, Nat.lt_of_succ_lt hi2⟩).heightPx
        * (computeGeometry canvas.width a4WidthPt a4HeightPt padding).scale),
    ?_, ?_, ?_, ?_⟩
  · simp only [List.get_eq_getElem, List.getElem_map, pageOf]
  · show (L.get ⟨i, Nat.lt_of_succ_lt hi2⟩).heightPx
        * (computeGeometry canvas.width a4WidthPt a4HeightPt padding).scale
      = (computeGeometry canvas.width a4WidthPt a4HeightPt padding).pageHeightPx
        * (computeGeometry canvas.width a4WidthPt a4HeightPt padding).scale
    rw [hslice]
  · show (L.get ⟨i, Nat.lt_of_succ_lt hi2⟩).heightPx
        * (computeGeometry canvas.width a4WidthPt a4HeightPt padding).scale
      = a4HeightPt
    rw [hslice, hps]
  · show a4HeightPt - padding < padding
        + (L.get ⟨i, Nat.lt_of_succ_lt hi2⟩).heightPx
          * (computeGeometry canvas.width a4WidthPt a4HeightPt padding).scale
    rw [hslice, hps]
    norm_num [a4HeightPt, padding]

/-- Witness for C9: a 600-wide, 2000-tall capture (three pages) with a total
encoder. -/
theorem fullPage_band_encroaches_margin_witness :
    ∃ tr pdf,
      handleExportPDF (Except.ok (Canvas.mk 600 2000)) (fun _ _ => Except.ok "img")
        = some tr ∧
      savedDocs tr = [pdf] ∧
      ∀ i (hi : i + 1 < pdf.pages.length),
        ∃ pl, pdf.pages.get ⟨i, Nat.lt_of_succ_lt hi⟩ = [pl] ∧
          pl.h = (computeGeometry (Canvas.mk 600 2000).width a4WidthPt a4HeightPt padding).pageHeightPx
              * (computeGeometry (Canvas.mk 600 2000).width a4WidthPt a4HeightPt padding).scale ∧
          pl.h = a4HeightPt ∧
          a4HeightPt - padding < padding + pl.h :=
  fullPage_band_encroaches_margin (Canvas.mk 600 2000) (fun _ _ => Except.ok "img")
    (by decide) (by decide) (fun y h => ⟨"img", rfl⟩)

/-- C4: on every terminating export invocation, if the `try` body fails with
any error the error is caught and logged and no save call is made; if the
body succeeds, exactly one save attempt is made, with filename
`"events-overview.pdf"` and the finished document, and nothing is logged. -/
theorem export_save_on_success_only (capture : Except PipeError Canvas)
    (encode : ℚ → ℚ → Except PipeError String) (tr : List Event)
    (htr : handleExportPDF capture encode = some tr) :
    (∀ e, tryBody capture encode = some (Except.error e) →
      savedFiles tr = [] ∧ savedDocs tr = [] ∧ Event.logError e ∈ tr) ∧
    (∀ pdf, tryBody capture encode = some (Except.ok pdf) →
      savedFiles tr = ["events-overview.pdf"] ∧ savedDocs tr = [pdf] ∧
      ∀ e, Event.logError e ∉ tr) := by
  rcases hb : tryBody capture encode with _ | r
  · rw [handleExportPDF, hb] at htr
    exact absurd htr (by simp)
  · cases r with
    | error e =>
      rw [handleExportPDF, hb] at htr
      have htr2 : tr = [Event.addIndicator, Event.logError e, Event.removeIndicator] := by
        injection htr with h2
        exact h2.symm
      subst htr2
      constructor
      · intro e2 he2
        have he3 : e = e2 := by
          injection he2 with h3
          injection h3 with h4
        subst he3
        refine ⟨by simp [savedFiles], by simp [savedDocs], by simp⟩
      · intro pdf hpdf
        exact absurd hpdf (by simp)
    | ok pdf =>
      rw [handleExportPDF, hb] at htr
      have htr2 : tr = [Event.addIndicator,
          Event.save "events-overview.pdf" pdf, Event.removeIndicator] := by
        injection htr with h2
        exact h2.symm
      subst htr2
      constructor
      · intro e2 he2
        exact absurd he2 (by simp)
      · intro pdf2 hpdf2
        have hp2 : pdf = pdf2 := by
          injection hpdf2 with h3
          injection h3 with h4
        subst hp2
        refine ⟨by simp [savedFiles], by simp [savedDocs], by simp⟩

/-- Witness for C4 at a failing capture. -/
theorem export_save_on_success_only_witness :
    (∀ e, tryBody (Except.error PipeError.captureFailure)
        (fun _ _ => Except.ok "img") = some (Except.error e) →
      savedFiles [Event.addIndicator, Event.logError PipeError.captureFailure,
          Event.removeIndicator] = [] ∧
      savedDocs [Event.addIndicator, Event.logError PipeError.captureFailure,
          Event.removeIndicator] = [] ∧
      Event.logError e ∈ [Event.addIndicator,
          Event.logError PipeError.captureFailure, Event.removeIndicator]) ∧
    (∀ pdf, tryBody (Except.error PipeError.captureFailure)
        (fun _ _ => Except.ok "img") = some (Except.ok pdf) →
      savedFiles [Event.addIndicator, Event.logError PipeError.captureFailure,
          Event.removeIndicator] = ["events-overview.pdf"] ∧
      savedDocs [Event.addIndicator, Event.logError PipeError.captureFailure,
          Event.removeIndicator] = [pdf] ∧
      ∀ e, Event.logError e ∉ [Event.addIndicator,
          Event.logError PipeError.captureFailure, Event.removeIndicator]) :=
  export_save_on_success_only (Except.error PipeError.captureFailure)
    (fun _ _ => Except.ok "img")
    [Event.addIndicator, Event.logError PipeError.captureFailure,
      Event.removeIndicator] rfl

/-- C5: every terminating export invocation sets the exporting indicator
exactly once, as its first action, and clears it exactly once, as its last
action, on every exit path. -/
theorem export_indicator_balanced (capture : Except PipeError Canvas)
    (encode : ℚ → ℚ → Except PipeError String) (tr : List Event)
    (htr : handleExportPDF capture encode = some tr) :
    ∃ evs, tr = Event.addIndicator :: (evs ++ [Event.removeIndicator]) ∧
      Event.addIndicator ∉ evs ∧ Event.removeIndicator ∉ evs := by
  rcases hb : tryBody capture encode with _ | r
  · rw [handleExportPDF, hb] at htr
    exact absurd htr (by simp)
  · cases r with
    | error e =>
      rw [handleExportPDF, hb] at htr
      have htr2 : tr = [Event.addIndicator, Event.logError e, Event.removeIndicator] := by
        injection htr with h2
        exact h2.symm
      subst htr2
      exact ⟨[Event.logError e], rfl, by simp, by simp⟩
    | ok pdf =>
      rw [handleExportPDF, hb] at htr
      have htr2 : tr = [Event.addIndicator,
          Event.save "events-overview.pdf" pdf, Event.removeIndicator] := by
        injection htr with h2
        exact h2.symm
      subst htr2
      exact ⟨[Event.save "events-overview.pdf" pdf], rfl, by simp, by simp⟩

/-- Witness for C5 at a failing capture (Scenario C: no raster). -/
theorem export_indicator_balanced_witness :
    ∃ evs, [Event.addIndicator, Event.logError PipeError.captureFailure,
        Event.removeIndicator]
      = Event.addIndicator :: (evs ++ [Event.removeIndicator]) ∧
      Event.addIndicator ∉ evs ∧ Event.removeIndicator ∉ evs :=
  export_indicator_balanced (Except.error PipeError.captureFailure)
    (fun _ _ => Except.ok "img")
    [Event.addIndicator, Event.logError PipeError.captureFailure,
      Event.removeIndicator] rfl

/-- C7 counterexample: at `height = 0` (a non-positive height) and
`pageContentHeightPx = 400` the slicing does not fail with any error: the
loop body never runs, zero slices are produced, and the export of a 600-wide,
0-tall capture still performs its save call, emitting the fresh single-page
document — contradicting the claim that such inputs fail with `InvalidInput`
and that no document is saved. -/
theorem slicer_no_invalid_input_check :
    slicer 0 400 = some [] ∧
    handleExportPDF (Except.ok (Canvas.mk 600 0)) (fun _ _ => Except.ok "img")
      = some [Event.addIndicator,
          Event.save "events-overview.pdf" PdfDoc.new,
          Event.removeIndicator] := by
  constructor
  · have h0 : Nat.ceil ((0 : ℚ) / 400) = 0 := by norm_num
    simp only [slicer, sliceFuel, h0]
    rw [sliceLoop.eq_def]
    norm_num
  · simp only [handleExportPDF, tryBody, sliceFuel]
    rw [exportLoop_stop _ _ _ _ _ _ (by norm_num)]
    rfl

/-- C7 amended: the code performs no validation of the slicing inputs.  For
any capture whose canvas height is non-positive the loop performs no
iterations: it emits no slices, raises no error (there is no `InvalidInput`
error anywhere in the code), and the export still saves the untouched
single-empty-page document.  (A non-positive `pageContentHeightPx` is equally
unguarded, but cannot arise from the A4 geometry with a positive canvas
width.) -/
theorem export_nonpositive_height_saves (canvas : Canvas)
    (encode : ℚ → ℚ → Except PipeError String) (hh : canvas.height ≤ 0) :
    slicer canvas.height
      (computeGeometry canvas.width a4WidthPt a4HeightPt padding).pageHeightPx
        = some [] ∧
    handleExportPDF (Except.ok canvas) encode
      = some [Event.addIndicator,
          Event.save "events-overview.pdf" PdfDoc.new,
          Event.removeIndicator] := by
  have hstop : ¬ (0 : ℚ) < canvas.height := not_lt.mpr hh
  constructor
  · simp only [slicer, sliceFuel]
    rw [sliceLoop.eq_def]
    simp [hstop]
  · simp only [handleExportPDF, tryBody, sliceFuel]
    rw [exportLoop_stop _ _ _ _ _ _ hstop]
    rfl

/-- Witness for the amended C7 at a 600-wide, 0-tall capture. -/
theorem export_nonpositive_height_saves_witness :
    slicer (Canvas.mk 600 0).height
      (computeGeometry (Canvas.mk 600 0).width a4WidthPt a4HeightPt padding).pageHeightPx
        = some [] ∧
    handleExportPDF (Except.ok (Canvas.mk 600 0)) (fun _ _ => Except.ok "img")
      = some [Event.addIndicator,
          Event.save "events-overview.pdf" PdfDoc.new,
          Event.removeIndicator] :=
  export_nonpositive_height_saves (Canvas.mk 600 0)
    (fun _ _ => Except.ok "img") (by decide)

/-- C8: with the captured raster and the geometry fixed, two sequential
export invocations are byte-identical: they save the same documents and
produce the same full effect traces. -/
theorem export_idempotent (capture : Except PipeError Canvas)
    (encode : ℚ → ℚ → Except PipeError String) (t1 t2 : List Event)
    (h1 : handleExportPDF capture encode = some t1)
    (h2 : handleExportPDF capture encode = some t2) :
    savedDocs t1 = savedDocs t2 ∧ t1 = t2 := by
  rw [h1] at h2
  have ht : t1 = t2 := by
    injection h2 with h3
  subst ht
  exact ⟨rfl, rfl⟩

/-- Witness for C8 at a concrete one-page export run twice. -/
theorem export_idempotent_witness :
    savedDocs [Event.addIndicator, Event.logError PipeError.captureFailure,
        Event.removeIndicator]
      = savedDocs [Event.addIndicator, Event.logError PipeError.captureFailure,
        Event.removeIndicator] ∧
    [Event.addIndicator, Event.logError PipeError.captureFailure,
        Event.removeIndicator]
      = [Event.addIndicator, Event.logError PipeError.captureFailure,
        Event.removeIndicator] :=
  export_idempotent (Except.error PipeError.captureFailure)
    (fun _ _ => Except.ok "img") _ _ rfl rfl

/-- Embeds the geometry block of the inline `handleExportPDF` defined inside
the legacy Events page component (textually identical to the standalone
utility's block). -/
def eventsComputeGeometry (canvasWidth pdfWidth pdfHeight pad : ℚ) : PageGeometry :=
  let imgWidth := pdfWidth - pad * 2
  let scale := imgWidth / canvasWidth
  { imgWidth := imgWidth, scale := scale, pageHeightPx := pdfHeight / scale }

/-- Embeds the slicing/compositing/assembly `while` loop of the inline
`handleExportPDF` of the Events page component (textually identical to the
standalone utility's loop). -/
def eventsExportLoop (encode : ℚ → ℚ → Except PipeError String)
    (g : PageGeometry) (height : ℚ) :
    ℕ → ℚ → PdfDoc → Option (Except PipeError PdfDoc)
  | 0, _, _ => none
  | fuel + 1, yPos, pdf =>
    if yPos < height then
      let h := min g.pageHeightPx (height - yPos)
      match encode yPos h with
      | Except.error e => some (Except.error e)
      | Except.ok data =>
          let pdf1 := pdf.addImage (Placement.mk data padding padding g.imgWidth (h * g.scale))
          let pdf2 := if yPos + h < height then pdf1.addPage else pdf1
          eventsExportLoop encode g height fuel (yPos + h) pdf2
    else
      some (Except.ok pdf)

/-- The `try` block body of the inline Events page handler. -/
def eventsTryBody (capture : Except PipeError Canvas)
    (encode : ℚ → ℚ → Except PipeError String) :
    Option (Except PipeError PdfDoc) :=
  match capture with
  | Except.error e => some (Except.error e)
  | Except.ok canvas =>
      let g := eventsComputeGeometry canvas.width a4WidthPt a4HeightPt padding
      eventsExportLoop encode g canvas.height
        (sliceFuel canvas.height g.pageHeightPx) 0 PdfDoc.new

/-- Embeds the inline `handleExportPDF` of the Events page component.  It
first queries `.content` and returns immediately (before any side effect)
when the element is missing; `input` is `none` in that case, and otherwise
carries the outcome of capturing the found element. -/
def eventsHandleExportPDF (input : Option (Except PipeError Canvas))
    (encode : ℚ → ℚ → Except PipeError String) : Option (List Event) :=
  match input with
  | none => some []
  | some capture =>
      match eventsTryBody capture encode with
      | none => none
      | some (Except.error e) =>
          some ([Event.addIndicator] ++ [Event.logError e] ++ [Event.removeIndicator])
      | some (Except.ok pdf) =>
          some ([Event.addIndicator] ++ [Event.save "events-overview.pdf" pdf]
            ++ [Event.removeIndicator])

lemma eventsExportLoop_eq_exportLoop (encode : ℚ → ℚ → Except PipeError String)
    (g : PageGeometry) (height : ℚ) :
    ∀ (fuel : ℕ) (yPos : ℚ) (pdf : PdfDoc),
      eventsExportLoop encode g height fuel yPos pdf
        = exportLoop encode g height fuel yPos pdf := by
  intro fuel
  induction fuel with
  | zero => intro yPos pdf; rfl
  | succ n ih =>
    intro yPos pdf
    rw [eventsExportLoop.eq_def, exportLoop.eq_def]
    by_cases hy : yPos < height
    · simp only [if_pos hy]
      cases henc : encode yPos (min g.pageHeightPx (height - yPos)) with
      | error e => rfl
      | ok d => simp only [ih]
    · simp only [if_neg hy]

/-- C10: given the same non-null captured raster and the same paper
parameters, the standalone export utility and the inline handler of the
legacy Events page component compute the same geometry and produce the same
effect trace — in particular the same slices, placements and output
document. -/
theorem events_inline_matches_util (canvas : Canvas)
    (encode : ℚ → ℚ → Except PipeError String)
    (rasterWidth pdfWidth pdfHeight pad : ℚ) :
    eventsComputeGeometry rasterWidth pdfWidth pdfHeight pad
      = computeGeometry rasterWidth pdfWidth pdfHeight pad ∧
    eventsHandleExportPDF (some (Except.ok canvas)) encode
      = handleExportPDF (Except.ok canvas) encode := by
  constructor
  · rfl
  · simp only [eventsHandleExportPDF, handleExportPDF, eventsTryBody, tryBody]
    rw [eventsExportLoop_eq_exportLoop]
    rfl
